import Mathlib

/-!
Verification of the backtesting and strategy-evaluation core of the
crypto-trading-bot repository, together with the frontend display layer
(React components under `frontend/src`).

The repository ships the dashboard frontend and documentation; the Python
backtesting engine (`backtesting/engine.py`: `Backtester`, `BacktestConfig`,
`PositionSizer`, the metrics calculator) is referenced by the documentation
and by the frontend but its source is not part of this tree, so those
components are modelled from the specification text and the theorems about
them are marked accordingly.  Frontend components (`RadarChart.jsx`,
`EquityCurveChart.jsx`, `MetricsPanel.jsx`, `Backtests.jsx`,
`services/api.js`) are translated directly from their JSX/JS sources.

Numbers are modelled as rationals (`ℚ`); timestamps as naturals.
-/

namespace CryptoBot

/-- One OHLCV observation for a fixed time period (spec §3 PriceBar). -/
structure PriceBar where
  timestamp : Nat
  «open» : ℚ
  high : ℚ
  low : ℚ
  close : ℚ
  volume : ℚ
deriving Repr, DecidableEq

/-- A PriceBar annotated with a directional signal in {-1, 0, 1}
(spec §3 SignalBar); the optional strength column is not needed here. -/
structure SignalBar where
  bar : PriceBar
  signal : Int
deriving Repr, DecidableEq

/-- Exit reasons of a closed trade (spec §3 TradeResult). -/
inductive ExitReason where
  | stop_loss
  | take_profit
  | signal_reversal
  | end_of_data
deriving Repr, DecidableEq

/-- An open position (spec §3 Position): side (1 long, -1 short), entry
time/price, quantity, stop price, target price; `entryIndex` is the index
of the bar at whose open the position was entered. -/
structure Position where
  side : Int
  entryTime : Nat
  entryIndex : Nat
  entryPrice : ℚ
  quantity : ℚ
  stopPrice : ℚ
  targetPrice : ℚ
deriving Repr, DecidableEq

/-- Immutable record of a closed trade (spec §3 TradeResult). -/
structure TradeResult where
  entryTime : Nat
  entryIndex : Nat
  exitTime : Nat
  entry_price : ℚ
  exit_price : ℚ
  side : Int
  quantity : ℚ
  pnl : ℚ
  pnl_pct : ℚ
  is_winning : Bool
  exit_reason : ExitReason
deriving Repr, DecidableEq

/-- One point of the equity curve (spec §3 EquityPoint):
total equity = realized cash + unrealized PnL of any open position. -/
structure EquityPoint where
  timestamp : Nat
  realized : ℚ
  unrealized : ℚ
  total : ℚ
deriving Repr, DecidableEq

/-- Backtest configuration (spec §3 BacktestConfig). -/
structure BacktestConfig where
  initial_capital : ℚ
  stop_loss_pct : ℚ
  take_profit_RR : ℚ
  fee_pct : ℚ
  allow_short : Bool
deriving Repr, DecidableEq

/-- Risk configuration (spec §3 RiskConfig). -/
structure RiskConfig where
  risk_pct : ℚ
deriving Repr, DecidableEq

/-- Error taxonomy of the core (spec §7). -/
inductive BacktestError where
  | insufficientDataError
  | invalidConfigError
  | degenerateStopError
deriving Repr, DecidableEq

namespace PositionSizer

/-- Modelled from the spec: `PositionSizer.size` of the missing
`backtesting/engine.py`.  Spec §4.2:
`size(equity, entryPrice, stopPrice, riskPct) -> (equity * riskPct) / |entryPrice - stopPrice|`,
failing with DegenerateStopError when entryPrice == stopPrice. -/
def size (equity entryPrice stopPrice riskPct : ℚ) : Except BacktestError ℚ :=
  if entryPrice = stopPrice then
    .error .degenerateStopError
  else
    .ok (equity * riskPct / |entryPrice - stopPrice|)

end PositionSizer

namespace Backtester

/-- Result of one Backtester run (spec §4.1): the trade list and the
equity curve, in chronological order.  (PerformanceMetrics are computed
separately by the metrics calculator.) -/
structure BacktestResult where
  trades : List TradeResult
  equity : List EquityPoint
deriving Repr, DecidableEq

/-- Modelled from the spec: the mutable state of one run of the missing
`Backtester` (spec §4.1): realized cash, the open position (at most one),
the accumulated trades and equity points (most recent first; reversed on
hand-off), and the signal observed on the previous bar that is pending
execution at the next bar's open. -/
structure BTState where
  cash : ℚ
  pos : Option Position
  trades : List TradeResult
  equity : List EquityPoint
  pending : Option Int
deriving Repr, DecidableEq

/-- Modelled from the spec: whether a bar's high/low range crosses the
position's stop price (spec §4.1). -/
def crossedStop (p : Position) (b : PriceBar) : Bool :=
  if p.side = 1 then b.low ≤ p.stopPrice else p.stopPrice ≤ b.high

/-- Modelled from the spec: whether a bar's high/low range crosses the
position's target price (spec §4.1). -/
def crossedTarget (p : Position) (b : PriceBar) : Bool :=
  if p.side = 1 then p.targetPrice ≤ b.high else b.low ≤ p.targetPrice

/-- Modelled from the spec: stop/target exit resolution for one bar
(spec §4.1).  If only one level is crossed, exit there; if both fall in
the bar's range, the level numerically closer to the bar's open triggers
first, with exact ties resolved in favor of stop_loss. -/
def resolveExit (p : Position) (b : PriceBar) : Option (ℚ × ExitReason) :=
  match crossedStop p b, crossedTarget p b with
  | true, true =>
      if |b.«open» - p.stopPrice| ≤ |b.«open» - p.targetPrice| then
        some (p.stopPrice, .stop_loss)
      else
        some (p.targetPrice, .take_profit)
  | true, false => some (p.stopPrice, .stop_loss)
  | false, true => some (p.targetPrice, .take_profit)
  | false, false => none

/-- Modelled from the spec: close the open position at price `px` on bar
`sb`, realizing its PnL into cash and recording the TradeResult.  Fees
(`fee_pct`) apply to both entry and exit notional (spec §4.1) and are
realized as part of the trade's PnL. -/
def closePosition (cfg : BacktestConfig) (st : BTState) (p : Position)
    (sb : SignalBar) (px : ℚ) (rsn : ExitReason) : BTState :=
  let gross : ℚ := (p.side : ℚ) * p.quantity * (px - p.entryPrice)
  let fees : ℚ := cfg.fee_pct * p.quantity * p.entryPrice + cfg.fee_pct * p.quantity * px
  let pnl : ℚ := gross - fees
  let notional : ℚ := p.quantity * p.entryPrice
  let trade : TradeResult :=
    { entryTime := p.entryTime
      entryIndex := p.entryIndex
      exitTime := sb.bar.timestamp
      entry_price := p.entryPrice
      exit_price := px
      side := p.side
      quantity := p.quantity
      pnl := pnl
      pnl_pct := if notional = 0 then 0 else pnl / notional * 100
      is_winning := decide (0 < pnl)
      exit_reason := rsn }
  { st with cash := st.cash + pnl, pos := none, trades := trade :: st.trades }

/-- Modelled from the spec: open a position at bar `sb`'s open from the
pending signal `s` observed on the previous bar (spec §4.1).  The stop is
`stop_loss_pct` away from entry against the trade, the target
`stop_loss_pct * take_profit_RR` away in its favor; quantity comes from
`PositionSizer.size`, validated before the position is created.  A short
signal with `allow_short = false` opens nothing. -/
def openPosition (cfg : BacktestConfig) (rc : RiskConfig) (st : BTState)
    (sb : SignalBar) (i : Nat) (s : Int) : Except BacktestError BTState :=
  if s = -1 ∧ ¬cfg.allow_short then
    .ok st
  else
    let entry : ℚ := sb.bar.«open»
    let stop : ℚ :=
      if s = 1 then entry * (1 - cfg.stop_loss_pct) else entry * (1 + cfg.stop_loss_pct)
    let tgt : ℚ :=
      if s = 1 then entry * (1 + cfg.stop_loss_pct * cfg.take_profit_RR)
      else entry * (1 - cfg.stop_loss_pct * cfg.take_profit_RR)
    match PositionSizer.size st.cash entry stop rc.risk_pct with
    | .error e => .error e
    | .ok qty =>
        .ok { st with
                pos := some
                  { side := s
                    entryTime := sb.bar.timestamp
                    entryIndex := i
                    entryPrice := entry
                    quantity := qty
                    stopPrice := stop
                    targetPrice := tgt } }

/-- Modelled from the spec: the trade-lifecycle part of processing bar
`sb` at index `i` (spec §4.1).  With a position open (entered on an
earlier bar): stop/target exits first, then signal-reversal close at the
current bar's open; the bar on which the position was entered performs no
exit check ("each subsequent bar").  Flat: a pending signal from the
previous bar opens at this bar's open; no pending signal opens nothing —
in particular a signal never trades on its own bar. -/
def stepCore (cfg : BacktestConfig) (rc : RiskConfig) (i : Nat)
    (sb : SignalBar) (st : BTState) : Except BacktestError BTState :=
  match st.pos with
  | some p =>
      if p.entryIndex < i then
        match resolveExit p sb.bar with
        | some (px, rsn) => .ok (closePosition cfg st p sb px rsn)
        | none =>
            if sb.signal ≠ p.side then
              .ok (closePosition cfg st p sb sb.bar.«open» .signal_reversal)
            else
              .ok st
      else
        .ok st
  | none =>
      match st.pending with
      | some s => openPosition cfg rc st sb i s
      | none => .ok st

/-- Modelled from the spec: after the lifecycle phase of a bar, record the
signal to act on at the next bar's open: a nonzero signal observed while
flat (spec §4.1); with a position open no entry is pending. -/
def updatePending (st : BTState) (sb : SignalBar) : BTState :=
  match st.pos with
  | some _ => { st with pending := none }
  | none => { st with pending := if sb.signal ≠ 0 then some sb.signal else none }

/-- Modelled from the spec: unrealized PnL of the open position, marked at
price `px` (spec §3 EquityPoint). -/
def unrealizedPnl (pos : Option Position) (px : ℚ) : ℚ :=
  match pos with
  | none => 0
  | some p => (p.side : ℚ) * p.quantity * (px - p.entryPrice)

/-- Modelled from the spec: this bar's equity point: total equity =
realized cash + unrealized PnL of any open position, marked at the bar's
close (spec §3 EquityPoint, §4.1). -/
def barPoint (st : BTState) (sb : SignalBar) : EquityPoint :=
  { timestamp := sb.bar.timestamp
    realized := st.cash
    unrealized := unrealizedPnl st.pos sb.bar.close
    total := st.cash + unrealizedPnl st.pos sb.bar.close }

/-- Modelled from the spec: append this bar's equity point, one per bar
(spec §4.1). -/
def recordEquity (st : BTState) (sb : SignalBar) : BTState :=
  { st with equity := barPoint st sb :: st.equity }

/-- Modelled from the spec: process one (non-final) bar: trade lifecycle,
pending-signal update, equity point. -/
def step (cfg : BacktestConfig) (rc : RiskConfig) (i : Nat) (sb : SignalBar)
    (st : BTState) : Except BacktestError BTState :=
  match stepCore cfg rc i sb st with
  | .error e => .error e
  | .ok st1 => .ok (recordEquity (updatePending st1 sb) sb)

/-- Modelled from the spec: process the final bar: trade lifecycle, then a
position still open is closed at the final bar's close with reason
end_of_data (spec §4.1), then the final equity point. -/
def stepLast (cfg : BacktestConfig) (rc : RiskConfig) (i : Nat) (sb : SignalBar)
    (st : BTState) : Except BacktestError BTState :=
  match stepCore cfg rc i sb st with
  | .error e => .error e
  | .ok st1 =>
      let st2 :=
        match st1.pos with
        | some p => closePosition cfg st1 p sb sb.bar.close .end_of_data
        | none => st1
      .ok (recordEquity { st2 with pending := none } sb)

/-- Modelled from the spec: fold the run state over the bars, strictly in
order, treating the last bar specially (end-of-data close). -/
def go (cfg : BacktestConfig) (rc : RiskConfig) :
    Nat → BTState → List SignalBar → Except BacktestError BTState
  | _, st, [] => .ok st
  | i, st, [sb] => stepLast cfg rc i sb st
  | i, st, sb :: sb2 :: rest =>
      match step cfg rc i sb st with
      | .error e => .error e
      | .ok st1 => go cfg rc (i + 1) st1 (sb2 :: rest)

/-- Modelled from the spec: the initial run state: cash = initial capital,
flat, nothing accumulated, no pending signal. -/
def initState (cfg : BacktestConfig) : BTState :=
  { cash := cfg.initial_capital, pos := none, trades := [], equity := [], pending := none }

/-- Modelled from the spec: `Backtester.run` of the missing
`backtesting/engine.py` (spec §4.1): validates the input (empty series →
InsufficientDataError; stop_loss_pct ≤ 0 or take_profit_RR ≤ 0 →
InvalidConfigError), then simulates the series; "no entries triggered" is
a valid zero-trade result, never an error. -/
def run (bars : List SignalBar) (cfg : BacktestConfig) (rc : RiskConfig) :
    Except BacktestError BacktestResult :=
  if bars.isEmpty then
    .error .insufficientDataError
  else if cfg.stop_loss_pct ≤ 0 ∨ cfg.take_profit_RR ≤ 0 then
    .error .invalidConfigError
  else
    match go cfg rc 0 (initState cfg) bars with
    | .error e => .error e
    | .ok st => .ok { trades := st.trades.reverse, equity := st.equity.reverse }

end Backtester

namespace MetricsCalculator

/-- Modelled from the spec: the winning trades of a run — trades with
strictly positive realized PnL (spec §3 win flag, glossary). -/
def winningTrades (trades : List TradeResult) : List TradeResult :=
  trades.filter (fun t => 0 < t.pnl)

/-- Modelled from the spec: the losing trades — strictly negative PnL. -/
def losingTrades (trades : List TradeResult) : List TradeResult :=
  trades.filter (fun t => t.pnl < 0)

/-- Modelled from the spec: gross winning PnL. -/
def grossWin (trades : List TradeResult) : ℚ :=
  ((winningTrades trades).map TradeResult.pnl).sum

/-- Modelled from the spec: absolute gross losing PnL. -/
def grossLossAbs (trades : List TradeResult) : ℚ :=
  |((losingTrades trades).map TradeResult.pnl).sum|

/-- Modelled from the spec: `profit_factor` of the missing metrics
calculator (spec §4.3): sum(winning PnL) / |sum(losing PnL)|, defined as 0
when there are no winning trades (including the zero-trade case), never
NaN/undefined.  The spec leaves the winners-but-no-losers value open
beyond requiring it positive; it is modelled as the gross winning PnL. -/
def profit_factor (trades : List TradeResult) : ℚ :=
  if winningTrades trades = [] then 0
  else if grossLossAbs trades = 0 then grossWin trades
  else grossWin trades / grossLossAbs trades

/-- Modelled from the spec: num_trades of PerformanceMetrics (spec §3). -/
def num_trades (trades : List TradeResult) : Nat :=
  trades.length

end MetricsCalculator

/-- JavaScript `x || 0` on a number that is present and not NaN: 0 stays 0
(falsy), anything else is itself.  Used verbatim by the JSX sources. -/
def jsOrZero (x : ℚ) : ℚ :=
  if x = 0 then 0 else x

namespace MetricsPanel

/-- The Profit Factor cell of `MetricsPanel.jsx` (line 10):
`(metrics.profit_factor || 0)`; an absent (undefined) field displays 0. -/
def profitFactorDisplayed (pf : Option ℚ) : ℚ :=
  jsOrZero (pf.getD 0)

end MetricsPanel

namespace Backtests

/-- What the backtest-detail section of `Backtests.jsx` renders for the
trade list: the trades table (lines 216-263) or the informational
no-trades paragraph (lines 265-269). -/
inductive TradesRendering where
  | tradesTable
  | infoMessage
deriving Repr, DecidableEq

/-- `Backtests.jsx` lines 216 and 265: the trades table renders when
`trades?.length > 0`, the informational message when
`!trades || trades.length === 0`. -/
def tradesSection (trades : Option (List TradeResult)) : TradesRendering :=
  match trades with
  | none => .infoMessage
  | some ts => if 0 < ts.length then .tradesTable else .infoMessage

end Backtests

namespace RadarChart

/-- One strategy entry as built by `RiskAnalytics.jsx` (lines 63-70) and
consumed by `RadarChart.jsx`. -/
structure StrategyEntry where
  returnPct : ℚ
  winRate : ℚ
  profitFactor : ℚ
  sharpe : ℚ
  recovery : ℚ
deriving Repr, DecidableEq

/-- The five-value radar dataset of `RadarChart.jsx` (lines 46-52):
normalized return, win rate, profit factor, sharpe, recovery. -/
def radarData (s : StrategyEntry) : List ℚ :=
  [ min (max (jsOrZero s.returnPct / 50 * 100) 0) 100,
    jsOrZero s.winRate,
    min (jsOrZero s.profitFactor / 3 * 100) 100,
    min (max (jsOrZero s.sharpe / 3 * 100) 0) 100,
    min (max (jsOrZero s.recovery / 5 * 100) 0) 100 ]

end RadarChart

namespace EquityCurveChart

/-- `EquityCurveChart.jsx` line 285:
`values.map(v => v >= startingCapital ? v : startingCapital)`. -/
def aboveStarting (values : List ℚ) (startingCapital : ℚ) : List ℚ :=
  values.map (fun v => if startingCapital ≤ v then v else startingCapital)

/-- `EquityCurveChart.jsx` line 286:
`values.map(v => v < startingCapital ? v : startingCapital)`. -/
def belowStarting (values : List ℚ) (startingCapital : ℚ) : List ℚ :=
  values.map (fun v => if v < startingCapital then v else startingCapital)

end EquityCurveChart

namespace ApiClient

/-- The JWT payload as read by `services/api.js` line 30: the result of
`JSON.parse(atob(token.split('.')[1]))`, of which only the (possibly
absent) numeric `exp` field is consulted. -/
structure JwtPayload where
  exp : Option ℚ
deriving Repr, DecidableEq

/-- Outcome of the response interceptor of `services/api.js` (lines
22-43): the token left in localStorage, whether the browser was
redirected to /login, and whether the error was rejected to the caller. -/
structure InterceptorOutcome where
  tokenAfter : Option String
  redirectedToLogin : Bool
  rejected : Bool
deriving Repr, DecidableEq

/-- The error branch of `api.interceptors.response.use` (lines 24-42).
`decode` models `JSON.parse(atob(token.split('.')[1]))`: `none` when that
expression throws.  A decoded payload without `exp` leaves the token in
place (`undefined * 1000 < Date.now()` is false).  The error is always
rejected back to the caller (line 41). -/
def handle401 (decode : String → Option JwtPayload) (now : ℚ)
    (status : Nat) (stored : Option String) : InterceptorOutcome :=
  if status = 401 then
    match stored with
    | some t =>
        match decode t with
        | some payload =>
            match payload.exp with
            | some e =>
                if e * 1000 < now then
                  { tokenAfter := none, redirectedToLogin := true, rejected := true }
                else
                  { tokenAfter := some t, redirectedToLogin := false, rejected := true }
            | none =>
                { tokenAfter := some t, redirectedToLogin := false, rejected := true }
        | none =>
            { tokenAfter := none, redirectedToLogin := true, rejected := true }
    | none =>
        { tokenAfter := none, redirectedToLogin := false, rejected := true }
  else
    { tokenAfter := stored, redirectedToLogin := false, rejected := true }

end ApiClient

/-! Concrete example inputs, used to instantiate the theorems below.
`exBars` realizes spec §8 scenario 2: a long signal on bar 0 enters at bar
1's open = 100 with stop 98 (2%) and target 104 (RR = 2); bar 2 has
open = 101, high = 105, low = 97 and crosses both levels at distance 3
from its open. -/

/-- Example configuration: 10000 capital, 2% stop, RR 2, no fees. -/
def exCfg : BacktestConfig :=
  { initial_capital := 10000, stop_loss_pct := 2/100, take_profit_RR := 2,
    fee_pct := 0, allow_short := false }

/-- Example risk configuration: 1% of equity risked per trade. -/
def exRc : RiskConfig := { risk_pct := 1/100 }

/-- Bar 0: flat price, long signal. -/
def exSignalBar0 : SignalBar :=
  { bar := { timestamp := 0, «open» := 100, high := 100, low := 100, close := 100, volume := 0 },
    signal := 1 }

/-- Bar 1: opens at 100 (the entry bar), stays inside the stop/target band. -/
def exSignalBar1 : SignalBar :=
  { bar := { timestamp := 1, «open» := 100, high := 101, low := 99, close := 201/2, volume := 0 },
    signal := 1 }

/-- Bar 2: open 101, high 105, low 97 — crosses both stop and target. -/
def exSignalBar2 : SignalBar :=
  { bar := { timestamp := 2, «open» := 101, high := 105, low := 97, close := 98, volume := 0 },
    signal := 1 }

/-- The three-bar example series of spec §8 scenario 2. -/
def exBars : List SignalBar := [exSignalBar0, exSignalBar1, exSignalBar2]

/-- The position the example run holds after bar 1's open. -/
def exPosition : Position :=
  { side := 1, entryTime := 1, entryIndex := 1, entryPrice := 100,
    quantity := 50, stopPrice := 98, targetPrice := 104 }

/-- Bar 2's price data alone. -/
def exTieBar : PriceBar :=
  { timestamp := 2, «open» := 101, high := 105, low := 97, close := 98, volume := 0 }

/-- The exact result of running the Backtester on `exBars`: the tie bar
closes at the stop price 98 with reason stop_loss, for a loss of 100. -/
def exResult : Backtester.BacktestResult :=
  { trades := [{ entryTime := 1, entryIndex := 1, exitTime := 2,
                 entry_price := 100, exit_price := 98, side := 1, quantity := 50,
                 pnl := -100, pnl_pct := -2, is_winning := false,
                 exit_reason := .stop_loss }],
    equity := [{ timestamp := 0, realized := 10000, unrealized := 0, total := 10000 },
               { timestamp := 1, realized := 10000, unrealized := 25, total := 10025 },
               { timestamp := 2, realized := 9900, unrealized := 0, total := 9900 }] }

/-- A two-bar series whose signal is identically zero. -/
def exFlatBars : List SignalBar :=
  [ { bar := { timestamp := 0, «open» := 10, high := 11, low := 9, close := 10, volume := 0 },
      signal := 0 },
    { bar := { timestamp := 1, «open» := 10, high := 11, low := 9, close := 12, volume := 0 },
      signal := 0 } ]

/-- A flat state with a pending long signal observed on the previous bar. -/
def exPendingState : Backtester.BTState :=
  { cash := 10000, pos := none, trades := [], equity := [], pending := some 1 }

/-- The state after the pending signal executes at bar 1's open. -/
def exOpenedState : Backtester.BTState :=
  { cash := 10000, pos := some exPosition, trades := [], equity := [], pending := some 1 }

/-! ## Theorems -/

/-- Auxiliary: a clamped value `min (max x 0) 100` lies in [0, 100]. -/
theorem clamp_mem_range (x : ℚ) : 0 ≤ min (max x 0) 100 ∧ min (max x 0) 100 ≤ 100 :=
  ⟨le_min (le_max_right x 0) (by norm_num), min_le_right _ _⟩

/-- Auxiliary: `jsOrZero` preserves non-negativity. -/
theorem jsOrZero_nonneg {x : ℚ} (h : 0 ≤ x) : 0 ≤ jsOrZero x := by
  unfold jsOrZero
  split <;> [norm_num; exact h]

/-- C8: every radar dataset value built by RadarChart for a strategy entry
with winRate in [0, 100] and profitFactor ≥ 0 lies in [0, 100]. -/
theorem radar_values_in_unit_range (s : RadarChart.StrategyEntry)
    (h1 : 0 ≤ s.winRate) (h2 : s.winRate ≤ 100) (h3 : 0 ≤ s.profitFactor) :
    ∀ x ∈ RadarChart.radarData s, 0 ≤ x ∧ x ≤ 100 := by
  intro x hx
  simp only [RadarChart.radarData, List.mem_cons, List.mem_singleton,
    List.not_mem_nil, or_false] at hx
  have hpf : 0 ≤ jsOrZero s.profitFactor / 3 * 100 := by
    have := jsOrZero_nonneg h3
    positivity
  have hwr : 0 ≤ jsOrZero s.winRate ∧ jsOrZero s.winRate ≤ 100 := by
    unfold jsOrZero
    split <;> [norm_num; exact ⟨h1, h2⟩]
  rcases hx with h | h | h | h | h <;> subst h
  · exact clamp_mem_range _
  · exact hwr
  · exact ⟨le_min hpf (by norm_num), min_le_right _ _⟩
  · exact clamp_mem_range _
  · exact clamp_mem_range _

/-- C8 witness: the radar dataset of a concrete strategy entry
(returnPct 20, winRate 55, profitFactor 1.4, sharpe 1, recovery 2) lies
entirely in [0, 100]. -/
theorem radar_values_in_unit_range_witness :
    (0 : ℚ) ≤ (⟨20, 55, 7/5, 1, 2⟩ : RadarChart.StrategyEntry).winRate ∧
    (⟨20, 55, 7/5, 1, 2⟩ : RadarChart.StrategyEntry).winRate ≤ 100 ∧
    (0 : ℚ) ≤ (⟨20, 55, 7/5, 1, 2⟩ : RadarChart.StrategyEntry).profitFactor ∧
    ∀ x ∈ RadarChart.radarData ⟨20, 55, 7/5, 1, 2⟩, 0 ≤ x ∧ x ≤ 100 :=
  ⟨by norm_num, by norm_num, by norm_num,
    radar_values_in_unit_range ⟨20, 55, 7/5, 1, 2⟩ (by norm_num) (by norm_num) (by norm_num)⟩

/-- C9: in EquityCurveChart, `aboveStarting` is the pointwise max with the
starting capital and `belowStarting` the pointwise min, so the two bands
sum to value + startingCapital and bracket the starting capital. -/
theorem equity_bands_max_min (values : List ℚ) (sc : ℚ) (i : Nat) (v : ℚ)
    (hv : values[i]? = some v) :
    (EquityCurveChart.aboveStarting values sc)[i]? = some (max v sc) ∧
    (EquityCurveChart.belowStarting values sc)[i]? = some (min v sc) ∧
    max v sc + min v sc = v + sc ∧
    min v sc ≤ sc ∧ sc ≤ max v sc := by
  refine ⟨?_, ?_, ?_, min_le_right v sc, le_max_right v sc⟩
  · simp only [EquityCurveChart.aboveStarting, List.getElem?_map, hv, Option.map_some]
    rcases le_total sc v with h | h
    · simp [if_pos h, max_eq_left h]
    · rcases eq_or_lt_of_le h with h' | h'
      · simp [h']
      · simp [if_neg (not_le.mpr h'), max_eq_right h]
  · simp only [EquityCurveChart.belowStarting, List.getElem?_map, hv, Option.map_some]
    rcases lt_or_le v sc with h | h
    · simp [if_pos h, min_eq_left h.le]
    · simp [if_neg (not_lt.mpr h), min_eq_right h]
  · rcases le_total v sc with h | h
    · rw [max_eq_right h, min_eq_left h]; ring
    · rw [max_eq_left h, min_eq_right h]

/-- C9 witness: for values [9000, 10500] and starting capital 10000 the
bands at index 0 are max/min with 10000 and satisfy the band algebra. -/
theorem equity_bands_max_min_witness :
    (([9000, 10500] : List ℚ))[0]? = some 9000 ∧
    ((EquityCurveChart.aboveStarting [9000, 10500] 10000)[0]? = some (max 9000 10000) ∧
     (EquityCurveChart.belowStarting [9000, 10500] 10000)[0]? = some (min 9000 10000) ∧
     max (9000 : ℚ) 10000 + min (9000 : ℚ) 10000 = 9000 + 10000 ∧
     min (9000 : ℚ) 10000 ≤ 10000 ∧ (10000 : ℚ) ≤ max 9000 10000) :=
  ⟨rfl, equity_bands_max_min [9000, 10500] 10000 0 9000 rfl⟩

/-- C10: in the API client's 401 handler with a token stored, the token is
removed (and the browser redirected to /login) exactly when the token
cannot be decoded or carries an `exp` timestamp in the past; a decodable
token that is not expired is left in place, and the error is always
rejected back to the caller. -/
theorem interceptor_401_token_policy (decode : String → Option ApiClient.JwtPayload)
    (now : ℚ) (t : String) :
    ((ApiClient.handle401 decode now 401 (some t)).tokenAfter = none ↔
       decode t = none ∨
         ∃ p e, decode t = some p ∧ p.exp = some e ∧ e * 1000 < now) ∧
    ((ApiClient.handle401 decode now 401 (some t)).redirectedToLogin = true ↔
       (ApiClient.handle401 decode now 401 (some t)).tokenAfter = none) ∧
    ((ApiClient.handle401 decode now 401 (some t)).tokenAfter ≠ none →
       (ApiClient.handle401 decode now 401 (some t)).tokenAfter = some t) ∧
    (∀ status stored, (ApiClient.handle401 decode now status stored).rejected = true) := by
  have hrej : ∀ status stored,
      (ApiClient.handle401 decode now status stored).rejected = true := by
    intro status stored
    unfold ApiClient.handle401
    repeat' split
    all_goals rfl
  rcases hdec : decode t with _ | payload
  · have hr : ApiClient.handle401 decode now 401 (some t) =
        { tokenAfter := none, redirectedToLogin := true, rejected := true } := by
      simp [ApiClient.handle401, hdec]
    rw [hr]
    exact ⟨by simp [hdec], by simp, by simp, hrej⟩
  · rcases hexp : payload.exp with _ | e
    · have hr : ApiClient.handle401 decode now 401 (some t) =
          { tokenAfter := some t, redirectedToLogin := false, rejected := true } := by
        simp [ApiClient.handle401, hdec, hexp]
      rw [hr]
      exact ⟨by simp [hdec, hexp], by simp, by simp, hrej⟩
    · by_cases hlt : e * 1000 < now
      · have hr : ApiClient.handle401 decode now 401 (some t) =
            { tokenAfter := none, redirectedToLogin := true, rejected := true } := by
          simp [ApiClient.handle401, hdec, hexp, hlt]
        rw [hr]
        exact ⟨by simp [hdec, hexp, hlt], by simp, by simp, hrej⟩
      · have hr : ApiClient.handle401 decode now 401 (some t) =
            { tokenAfter := some t, redirectedToLogin := false, rejected := true } := by
          simp [ApiClient.handle401, hdec, hexp, hlt]
        rw [hr]
        exact ⟨by simp [hdec, hexp, hlt], by simp, by simp, hrej⟩

/-- C10 witness: with a decoder yielding exp = 1 and now = 2000 (so the
token is expired), the 401 handler removes the token and rejects. -/
theorem interceptor_401_token_policy_witness :
    (ApiClient.handle401 (fun _ => some { exp := some 1 }) 2000 401 (some "tok")).tokenAfter
        = none ∧
    (ApiClient.handle401 (fun _ => some { exp := some 1 }) 2000 401 (some "tok")).rejected
        = true :=
  ⟨((interceptor_401_token_policy (fun _ => some { exp := some 1 }) 2000 "tok").1).mpr
      (Or.inr ⟨{ exp := some 1 }, 1, rfl, rfl, by norm_num⟩),
    (interceptor_401_token_policy (fun _ => some { exp := some 1 }) 2000 "tok").2.2.2
      401 (some "tok")⟩

/-- Auxiliary: inversion of a successful PositionSizer.size call — the
entry and stop price differ and the quantity is the sized one. -/
theorem size_ok_inversion {e en sp r q : ℚ}
    (h : PositionSizer.size e en sp r = .ok q) :
    en ≠ sp ∧ q = e * r / |en - sp| := by
  unfold PositionSizer.size at h
  by_cases hes : en = sp
  · rw [if_pos hes] at h
    cases h
  · rw [if_neg hes] at h
    injection h with h'
    exact ⟨hes, h'.symm⟩

/-- C6: PositionSizer.size returns (equity * riskPct) / |entryPrice -
stopPrice| whenever entryPrice ≠ stopPrice, fails with
DegenerateStopError when entryPrice = stopPrice (the division is never
reached), and the Backtester performs this validation before opening any
position: a position it opens always has entry ≠ stop and the sized
quantity. -/
theorem position_sizer_contract (equity entryPrice stopPrice riskPct : ℚ) :
    (entryPrice ≠ stopPrice →
       PositionSizer.size equity entryPrice stopPrice riskPct =
         .ok (equity * riskPct / |entryPrice - stopPrice|)) ∧
    (entryPrice = stopPrice →
       PositionSizer.size equity entryPrice stopPrice riskPct =
         .error .degenerateStopError) ∧
    (∀ (cfg : BacktestConfig) (rc : RiskConfig) (st : Backtester.BTState)
       (sb : SignalBar) (i : Nat) (s : Int) (st' : Backtester.BTState) (p : Position),
       st.pos = none →
       Backtester.openPosition cfg rc st sb i s = .ok st' →
       st'.pos = some p →
       p.entryPrice ≠ p.stopPrice ∧
       p.quantity = st.cash * rc.risk_pct / |p.entryPrice - p.stopPrice|) := by
  refine ⟨?_, ?_, ?_⟩
  · intro h
    unfold PositionSizer.size
    rw [if_neg h]
  · intro h
    unfold PositionSizer.size
    rw [if_pos h]
  · intro cfg rc st sb i s st' p hflat hopen hpos
    by_cases hshort : s = -1 ∧ ¬cfg.allow_short
    · rw [Backtester.openPosition, if_pos hshort] at hopen
      cases hopen
      rw [hflat] at hpos
      cases hpos
    · simp only [Backtester.openPosition, if_neg hshort] at hopen
      cases hsz : PositionSizer.size st.cash (sb.bar.«open»)
          (if s = 1 then sb.bar.«open» * (1 - cfg.stop_loss_pct)
           else sb.bar.«open» * (1 + cfg.stop_loss_pct)) rc.risk_pct with
      | error err =>
          rw [hsz] at hopen
          simp at hopen
      | ok qty =>
          rw [hsz] at hopen
          injection hopen with h1
          subst h1
          injection hpos with h2
          subst h2
          obtain ⟨hne, hq⟩ := size_ok_inversion hsz
          exact ⟨hne, hq⟩

/-- C6 witness: sizing 10000 equity at entry 100, stop 98, risk 1% yields
quantity 50, while entry = stop = 100 fails with DegenerateStopError. -/
theorem position_sizer_contract_witness :
    (100 : ℚ) ≠ 98 ∧
    PositionSizer.size 10000 100 98 (1/100) = .ok (10000 * (1/100) / |100 - 98|) ∧
    PositionSizer.size 10000 100 100 (1/100) = .error .degenerateStopError :=
  ⟨by norm_num,
    (position_sizer_contract 10000 100 98 (1/100)).1 (by norm_num),
    (position_sizer_contract 10000 100 100 (1/100)).2.1 rfl⟩

/-- C7: the Backtester is deterministic — two runs on identical signal
series and configurations produce identical trade lists and identical
equity curves. -/
theorem backtester_deterministic (bars : List SignalBar) (cfg : BacktestConfig)
    (rc : RiskConfig) (res₁ res₂ : Backtester.BacktestResult)
    (h₁ : Backtester.run bars cfg rc = .ok res₁)
    (h₂ : Backtester.run bars cfg rc = .ok res₂) :
    res₁.trades = res₂.trades ∧ res₁.equity = res₂.equity := by
  rw [h₁] at h₂
  injection h₂ with h
  subst h
  exact ⟨rfl, rfl⟩

/-- C7 witness: the three-bar example run yields `exResult`, on both of
two identical invocations. -/
theorem backtester_deterministic_witness :
    Backtester.run exBars exCfg exRc = .ok exResult ∧
    exResult.trades = exResult.trades ∧ exResult.equity = exResult.equity := by
  have hrun : Backtester.run exBars exCfg exRc = .ok exResult := by
    norm_num [Backtester.run, Backtester.go, Backtester.step, Backtester.stepLast,
      Backtester.stepCore, Backtester.openPosition, Backtester.closePosition,
      Backtester.updatePending, Backtester.recordEquity, Backtester.barPoint, Backtester.unrealizedPnl,
      Backtester.resolveExit, Backtester.crossedStop, Backtester.crossedTarget,
      Backtester.initState, PositionSizer.size, exBars, exCfg, exRc, exSignalBar0,
      exSignalBar1, exSignalBar2, exResult, exPosition]
  exact ⟨hrun, backtester_deterministic exBars exCfg exRc exResult exResult hrun hrun⟩

/-- C1: when a bar's high/low range crosses both the stop and the target
price of the open position, the Backtester closes at the level whose
distance to that bar's open price is smaller, resolving exact ties in
favor of the stop; the step function records the corresponding trade with
that exit price and exit reason and destroys the position. -/
theorem samebar_tiebreak_stop_first (p : Position) (b : PriceBar)
    (hs : Backtester.crossedStop p b = true)
    (ht : Backtester.crossedTarget p b = true) :
    (|b.«open» - p.stopPrice| ≤ |b.«open» - p.targetPrice| →
       Backtester.resolveExit p b = some (p.stopPrice, .stop_loss)) ∧
    (|b.«open» - p.targetPrice| < |b.«open» - p.stopPrice| →
       Backtester.resolveExit p b = some (p.targetPrice, .take_profit)) ∧
    (∀ (cfg : BacktestConfig) (rc : RiskConfig) (i : Nat) (st : Backtester.BTState)
       (sb : SignalBar) (px : ℚ) (rsn : ExitReason),
       sb.bar = b → st.pos = some p → p.entryIndex < i →
       Backtester.resolveExit p b = some (px, rsn) →
       Backtester.stepCore cfg rc i sb st =
           .ok (Backtester.closePosition cfg st p sb px rsn) ∧
         (Backtester.closePosition cfg st p sb px rsn).pos = none ∧
         ∃ t, (Backtester.closePosition cfg st p sb px rsn).trades = t :: st.trades ∧
           t.exit_price = px ∧ t.exit_reason = rsn) := by
  refine ⟨?_, ?_, ?_⟩
  · intro hd
    unfold Backtester.resolveExit
    rw [hs, ht, if_pos hd]
  · intro hd
    unfold Backtester.resolveExit
    rw [hs, ht, if_neg (not_le.mpr hd)]
  · intro cfg rc i st sb px rsn hb hpos hidx hres
    subst hb
    refine ⟨?_, rfl, ⟨_, rfl, rfl, rfl⟩⟩
    simp [Backtester.stepCore, hpos, hidx, hres]

/-- C1 witness: for the spec §8 scenario — entry 100, stop 98, target
104, bar open 101 / high 105 / low 97 — both levels are crossed at
distance 3 from the bar's open, and the tie resolves to exit price 98
with reason stop_loss. -/
theorem samebar_tiebreak_stop_first_witness :
    Backtester.crossedStop exPosition exTieBar = true ∧
    Backtester.crossedTarget exPosition exTieBar = true ∧
    |exTieBar.«open» - exPosition.stopPrice| ≤ |exTieBar.«open» - exPosition.targetPrice| ∧
    Backtester.resolveExit exPosition exTieBar = some (98, .stop_loss) := by
  have h1 : Backtester.crossedStop exPosition exTieBar = true := by
    norm_num [Backtester.crossedStop, exPosition, exTieBar]
  have h2 : Backtester.crossedTarget exPosition exTieBar = true := by
    norm_num [Backtester.crossedTarget, exPosition, exTieBar]
  have h3 : |exTieBar.«open» - exPosition.stopPrice| ≤
      |exTieBar.«open» - exPosition.targetPrice| := by
    norm_num [exPosition, exTieBar]
  exact ⟨h1, h2, h3, (samebar_tiebreak_stop_first exPosition exTieBar h1 h2).1 h3⟩

/-- C5: a nonzero signal observed while flat on bar i opens the position
at bar i+1's open price, never at bar i's own price: while flat with no
pending signal the lifecycle step is the identity (the signal's own bar
opens nothing), a pending signal opens at the processed bar's open, and a
pending signal is recorded exactly when the bar's own signal is nonzero
and the run is flat after the bar. -/
theorem entry_at_next_bar_open (cfg : BacktestConfig) (rc : RiskConfig) (i : Nat)
    (sb : SignalBar) (st : Backtester.BTState) (hflat : st.pos = none) :
    (st.pending = none → Backtester.stepCore cfg rc i sb st = .ok st) ∧
    (∀ (s : Int) (st' : Backtester.BTState) (p : Position),
       st.pending = some s →
       Backtester.stepCore cfg rc i sb st = .ok st' → st'.pos = some p →
       p.entryPrice = sb.bar.«open» ∧ p.entryIndex = i) ∧
    (∀ (st' : Backtester.BTState) (s : Int),
       Backtester.step cfg rc i sb st = .ok st' → st'.pending = some s →
       sb.signal = s ∧ s ≠ 0 ∧ st'.pos = none) := by
  refine ⟨?_, ?_, ?_⟩
  · intro hp
    simp [Backtester.stepCore, hflat, hp]
  · intro s st' p hp hcore hpos
    simp only [Backtester.stepCore, hflat, hp] at hcore
    by_cases hshort : s = -1 ∧ ¬cfg.allow_short
    · rw [Backtester.openPosition, if_pos hshort] at hcore
      cases hcore
      rw [hflat] at hpos
      cases hpos
    · simp only [Backtester.openPosition, if_neg hshort] at hcore
      cases hsz : PositionSizer.size st.cash (sb.bar.«open»)
          (if s = 1 then sb.bar.«open» * (1 - cfg.stop_loss_pct)
           else sb.bar.«open» * (1 + cfg.stop_loss_pct)) rc.risk_pct with
      | error err =>
          rw [hsz] at hcore
          simp at hcore
      | ok qty =>
          rw [hsz] at hcore
          injection hcore with h1
          subst h1
          injection hpos with h2
          subst h2
          exact ⟨rfl, rfl⟩
  · intro st' s hstep hpend
    unfold Backtester.step at hstep
    cases hcore : Backtester.stepCore cfg rc i sb st with
    | error e =>
        rw [hcore] at hstep
        simp at hstep
    | ok st1 =>
        rw [hcore] at hstep
        injection hstep with h1
        subst h1
        cases hpos1 : st1.pos with
        | some q =>
            simp [Backtester.recordEquity, Backtester.updatePending, hpos1] at hpend
        | none =>
            simp only [Backtester.recordEquity, Backtester.updatePending, hpos1] at hpend
            refine ?_
            by_cases hsig : sb.signal ≠ 0
            · rw [if_pos hsig] at hpend
              injection hpend with h2
              subst h2
              exact ⟨rfl, hsig, by
                simp [Backtester.recordEquity, Backtester.updatePending, hpos1]⟩
            · rw [if_neg hsig] at hpend
              cases hpend

/-- C5 witness: from a flat state with a pending long signal, processing
bar 1 (open = 100) opens the position at entry price 100 = bar 1's open
with entry index 1. -/
theorem entry_at_next_bar_open_witness :
    exPendingState.pos = none ∧
    exPendingState.pending = some 1 ∧
    Backtester.stepCore exCfg exRc 1 exSignalBar1 exPendingState = .ok exOpenedState ∧
    exOpenedState.pos = some exPosition ∧
    exPosition.entryPrice = exSignalBar1.bar.«open» ∧ exPosition.entryIndex = 1 := by
  have hcore : Backtester.stepCore exCfg exRc 1 exSignalBar1 exPendingState =
      .ok exOpenedState := by
    norm_num [Backtester.stepCore, Backtester.openPosition, PositionSizer.size,
      exCfg, exRc, exSignalBar1, exPendingState, exOpenedState, exPosition]
  have h := (entry_at_next_bar_open exCfg exRc 1 exSignalBar1 exPendingState rfl).2.1
    1 exOpenedState exPosition rfl hcore rfl
  exact ⟨rfl, rfl, hcore, rfl, h.1, h.2⟩

/-- C3: the profit factor is non-negative for every input trade list, is
zero exactly when there are no winning trades (including the zero-trade
case), and the value that MetricsPanel displays for it is likewise
non-negative, with an absent field displaying 0 rather than NaN. -/
theorem profit_factor_nonneg_zero_iff (trades : List TradeResult) :
    0 ≤ MetricsCalculator.profit_factor trades ∧
    (MetricsCalculator.profit_factor trades = 0 ↔
       MetricsCalculator.winningTrades trades = []) ∧
    0 ≤ MetricsPanel.profitFactorDisplayed
          (some (MetricsCalculator.profit_factor trades)) ∧
    MetricsPanel.profitFactorDisplayed none = 0 := by
  have hwin : MetricsCalculator.winningTrades trades ≠ [] →
      0 < MetricsCalculator.grossWin trades := by
    intro hne
    unfold MetricsCalculator.grossWin
    apply List.sum_pos
    · intro x hx
      obtain ⟨t, ht, hx⟩ := List.mem_map.mp hx
      have hp := (List.mem_filter.mp ht).2
      rw [← hx]
      exact of_decide_eq_true hp
    · intro hmap
      exact hne (by simpa using hmap)
  have hnn : 0 ≤ MetricsCalculator.profit_factor trades ∧
      (MetricsCalculator.profit_factor trades = 0 ↔
        MetricsCalculator.winningTrades trades = []) := by
    unfold MetricsCalculator.profit_factor
    by_cases h : MetricsCalculator.winningTrades trades = []
    · rw [if_pos h]
      exact ⟨le_refl 0, ⟨fun _ => h, fun _ => rfl⟩⟩
    · rw [if_neg h]
      have hgw := hwin h
      by_cases hl : MetricsCalculator.grossLossAbs trades = 0
      · rw [if_pos hl]
        exact ⟨hgw.le, ⟨fun h0 => absurd h0 hgw.ne', fun hw => absurd hw h⟩⟩
      · rw [if_neg hl]
        have hla : 0 < MetricsCalculator.grossLossAbs trades := by
          refine lt_of_le_of_ne ?_ (Ne.symm hl)
          unfold MetricsCalculator.grossLossAbs
          exact abs_nonneg _
        have hdiv : 0 < MetricsCalculator.grossWin trades /
            MetricsCalculator.grossLossAbs trades := div_pos hgw hla
        exact ⟨hdiv.le, ⟨fun h0 => absurd h0 hdiv.ne', fun hw => absurd hw h⟩⟩
  refine ⟨hnn.1, hnn.2, ?_, rfl⟩
  have hd : MetricsPanel.profitFactorDisplayed
      (some (MetricsCalculator.profit_factor trades)) =
        jsOrZero (MetricsCalculator.profit_factor trades) := rfl
  rw [hd]
  exact jsOrZero_nonneg hnn.1

/-- Auxiliary: closing a position leaves the equity curve untouched,
destroys the position, and changes cash by exactly the recorded trade's
PnL, so cash minus accumulated trade PnL is invariant. -/
theorem closePosition_effects (cfg : BacktestConfig) (st : Backtester.BTState)
    (p : Position) (sb : SignalBar) (px : ℚ) (rsn : ExitReason) :
    (Backtester.closePosition cfg st p sb px rsn).pos = none ∧
    (Backtester.closePosition cfg st p sb px rsn).equity = st.equity ∧
    (Backtester.closePosition cfg st p sb px rsn).cash -
        (((Backtester.closePosition cfg st p sb px rsn).trades.map TradeResult.pnl).sum)
      = st.cash - ((st.trades.map TradeResult.pnl).sum) := by
  refine ⟨rfl, rfl, ?_⟩
  simp only [Backtester.closePosition, List.map_cons, List.sum_cons]
  ring

/-- Auxiliary: `updatePending` only rewrites the pending-signal field. -/
theorem updatePending_fields (st : Backtester.BTState) (sb : SignalBar) :
    (Backtester.updatePending st sb).cash = st.cash ∧
    (Backtester.updatePending st sb).trades = st.trades ∧
    (Backtester.updatePending st sb).equity = st.equity ∧
    (Backtester.updatePending st sb).pos = st.pos := by
  cases hp : st.pos <;> simp [Backtester.updatePending, hp]

/-- Auxiliary: `recordEquity` only prepends this bar's equity point, whose
realized cash is the state's cash and whose total is realized plus
unrealized by construction. -/
theorem recordEquity_fields (st : Backtester.BTState) (sb : SignalBar) :
    (Backtester.recordEquity st sb).cash = st.cash ∧
    (Backtester.recordEquity st sb).trades = st.trades ∧
    (Backtester.recordEquity st sb).pos = st.pos ∧
    (Backtester.recordEquity st sb).equity = Backtester.barPoint st sb :: st.equity :=
  ⟨rfl, rfl, rfl, rfl⟩

/-- Auxiliary: the trade-lifecycle phase of one bar never touches the
equity curve and preserves cash minus accumulated trade PnL. -/
theorem stepCore_effects (cfg : BacktestConfig) (rc : RiskConfig) (i : Nat)
    (sb : SignalBar) (st st' : Backtester.BTState)
    (h : Backtester.stepCore cfg rc i sb st = .ok st') :
    st'.equity = st.equity ∧
    st'.cash - ((st'.trades.map TradeResult.pnl).sum)
      = st.cash - ((st.trades.map TradeResult.pnl).sum) := by
  cases hpos : st.pos with
  | some p =>
      simp only [Backtester.stepCore, hpos] at h
      by_cases hi : p.entryIndex < i
      · rw [if_pos hi] at h
        cases hres : Backtester.resolveExit p sb.bar with
        | none =>
            rw [hres] at h
            by_cases hsig : sb.signal ≠ p.side
            · rw [if_pos hsig] at h
              injection h with h1
              subst h1
              exact ⟨(closePosition_effects cfg st p sb (sb.bar.«open») .signal_reversal).2.1,
                (closePosition_effects cfg st p sb (sb.bar.«open») .signal_reversal).2.2⟩
            · rw [if_neg hsig] at h
              injection h with h1
              subst h1
              exact ⟨rfl, rfl⟩
        | some pr =>
            obtain ⟨px, rsn⟩ := pr
            rw [hres] at h
            injection h with h1
            subst h1
            exact ⟨(closePosition_effects cfg st p sb px rsn).2.1,
              (closePosition_effects cfg st p sb px rsn).2.2⟩
      · rw [if_neg hi] at h
        injection h with h1
        subst h1
        exact ⟨rfl, rfl⟩
  | none =>
      simp only [Backtester.stepCore, hpos] at h
      cases hpend : st.pending with
      | none =>
          rw [hpend] at h
          injection h with h1
          subst h1
          exact ⟨rfl, rfl⟩
      | some s =>
          simp only [hpend] at h
          by_cases hshort : s = -1 ∧ ¬cfg.allow_short
          · rw [Backtester.openPosition, if_pos hshort] at h
            injection h with h1
            subst h1
            exact ⟨rfl, rfl⟩
          · simp only [Backtester.openPosition, if_neg hshort] at h
            cases hsz : PositionSizer.size st.cash (sb.bar.«open»)
                (if s = 1 then sb.bar.«open» * (1 - cfg.stop_loss_pct)
                 else sb.bar.«open» * (1 + cfg.stop_loss_pct)) rc.risk_pct with
            | error err =>
                rw [hsz] at h
                simp at h
            | ok qty =>
                rw [hsz] at h
                injection h with h1
                subst h1
                exact ⟨rfl, rfl⟩

/-- Auxiliary: processing one non-final bar preserves cash minus
accumulated trade PnL and prepends exactly one well-formed equity point
whose realized cash equals the state's cash after the bar. -/
theorem step_effects (cfg : BacktestConfig) (rc : RiskConfig) (i : Nat)
    (sb : SignalBar) (st st' : Backtester.BTState)
    (h : Backtester.step cfg rc i sb st = .ok st') :
    (st'.cash - ((st'.trades.map TradeResult.pnl).sum)
       = st.cash - ((st.trades.map TradeResult.pnl).sum)) ∧
    ∃ pt : EquityPoint, st'.equity = pt :: st.equity ∧
      pt.total = pt.realized + pt.unrealized ∧ pt.realized = st'.cash := by
  unfold Backtester.step at h
  cases hcore : Backtester.stepCore cfg rc i sb st with
  | error e =>
      rw [hcore] at h
      simp at h
  | ok st1 =>
      rw [hcore] at h
      injection h with h1
      subst h1
      obtain ⟨heq, hD⟩ := stepCore_effects cfg rc i sb st st1 hcore
      obtain ⟨hc2, ht2, he2, hp2⟩ := updatePending_fields st1 sb
      obtain ⟨hc3, ht3, hp3, he3⟩ :=
        recordEquity_fields (Backtester.updatePending st1 sb) sb
      constructor
      · rw [hc3, ht3, hc2, ht2]
        exact hD
      · exact ⟨Backtester.barPoint (Backtester.updatePending st1 sb) sb,
          by rw [he3, he2, heq], rfl, rfl⟩

/-- Auxiliary: processing the final bar preserves cash minus accumulated
trade PnL, leaves no open position, and prepends exactly one well-formed
equity point whose realized cash equals the final cash. -/
theorem stepLast_effects (cfg : BacktestConfig) (rc : RiskConfig) (i : Nat)
    (sb : SignalBar) (st st' : Backtester.BTState)
    (h : Backtester.stepLast cfg rc i sb st = .ok st') :
    (st'.cash - ((st'.trades.map TradeResult.pnl).sum)
       = st.cash - ((st.trades.map TradeResult.pnl).sum)) ∧
    st'.pos = none ∧
    ∃ pt : EquityPoint, st'.equity = pt :: st.equity ∧
      pt.total = pt.realized + pt.unrealized ∧ pt.realized = st'.cash ∧
      pt.unrealized = 0 := by
  unfold Backtester.stepLast at h
  cases hcore : Backtester.stepCore cfg rc i sb st with
  | error e =>
      rw [hcore] at h
      simp at h
  | ok st1 =>
      rw [hcore] at h
      obtain ⟨heq, hD⟩ := stepCore_effects cfg rc i sb st st1 hcore
      cases hp1 : st1.pos with
      | some p =>
          simp only [hp1] at h
          injection h with h1
          subst h1
          obtain ⟨hposc, heqc, hDc⟩ :=
            closePosition_effects cfg st1 p sb (sb.bar.close) .end_of_data
          refine ⟨?_, rfl,
            ⟨Backtester.barPoint
              { Backtester.closePosition cfg st1 p sb (sb.bar.close) .end_of_data
                  with pending := none } sb, ?_, rfl, rfl, rfl⟩⟩
          · calc (Backtester.recordEquity
                { Backtester.closePosition cfg st1 p sb (sb.bar.close) .end_of_data
                    with pending := none } sb).cash -
                  (((Backtester.recordEquity
                    { Backtester.closePosition cfg st1 p sb (sb.bar.close) .end_of_data
                        with pending := none } sb).trades.map TradeResult.pnl).sum)
                = (Backtester.closePosition cfg st1 p sb (sb.bar.close)
                    .end_of_data).cash -
                  (((Backtester.closePosition cfg st1 p sb (sb.bar.close)
                    .end_of_data).trades.map TradeResult.pnl).sum) := rfl
            _ = st1.cash - ((st1.trades.map TradeResult.pnl).sum) := hDc
            _ = st.cash - ((st.trades.map TradeResult.pnl).sum) := hD
          · show _ = _ :: st.equity
            rw [show (Backtester.recordEquity
                { Backtester.closePosition cfg st1 p sb (sb.bar.close) .end_of_data
                    with pending := none } sb).equity
              = Backtester.barPoint
                  { Backtester.closePosition cfg st1 p sb (sb.bar.close) .end_of_data
                      with pending := none } sb ::
                (Backtester.closePosition cfg st1 p sb (sb.bar.close)
                  .end_of_data).equity from rfl]
            rw [heqc, heq]
      | none =>
          simp only [hp1] at h
          injection h with h1
          subst h1
          refine ⟨hD, rfl, ⟨Backtester.barPoint
            { cash := st1.cash, pos := none, trades := st1.trades,
              equity := st1.equity, pending := none } sb, ?_, rfl, rfl, rfl⟩⟩
          show _ = _ :: st.equity
          rw [show (Backtester.recordEquity
              { cash := st1.cash, pos := none, trades := st1.trades,
                equity := st1.equity, pending := none } sb).equity
            = Backtester.barPoint
                { cash := st1.cash, pos := none, trades := st1.trades,
                  equity := st1.equity, pending := none } sb :: st1.equity
            from rfl]
          rw [heq]

/-- Auxiliary: folding the run over the bars preserves cash minus
accumulated trade PnL, produces exactly one equity point per bar, keeps
every equity point well-formed, and (for a nonempty series) leaves the
most recent equity point's realized cash equal to the final cash. -/
theorem go_accounting (cfg : BacktestConfig) (rc : RiskConfig) :
    ∀ (bars : List SignalBar) (i : Nat) (st st' : Backtester.BTState),
    Backtester.go cfg rc i st bars = .ok st' →
    (∀ pt ∈ st.equity, pt.total = pt.realized + pt.unrealized) →
    (st'.cash - ((st'.trades.map TradeResult.pnl).sum)
       = st.cash - ((st.trades.map TradeResult.pnl).sum)) ∧
    st'.equity.length = st.equity.length + bars.length ∧
    (∀ pt ∈ st'.equity, pt.total = pt.realized + pt.unrealized) ∧
    (bars ≠ [] → ∃ pt, st'.equity.head? = some pt ∧ pt.realized = st'.cash) := by
  intro bars
  induction bars with
  | nil =>
      intro i st st' h hwf
      injection h with h1
      subst h1
      exact ⟨rfl, by simp, hwf, fun hne => absurd rfl hne⟩
  | cons sb rest ih =>
      intro i st st' h hwf
      cases rest with
      | nil =>
          have h' : Backtester.stepLast cfg rc i sb st = .ok st' := h
          obtain ⟨hD, hpos, pt, hpt, hwfpt, hreal, hu⟩ :=
            stepLast_effects cfg rc i sb st st' h'
          refine ⟨hD, ?_, ?_, ?_⟩
          · rw [hpt]
            simp
          · intro q hq
            rw [hpt] at hq
            rcases List.mem_cons.mp hq with hh | hh
            · subst hh
              exact hwfpt
            · exact hwf q hh
          · intro _
            refine ⟨pt, ?_, hreal⟩
            rw [hpt]
            rfl
      | cons sb2 rest2 =>
          have h' : (match Backtester.step cfg rc i sb st with
              | Except.error e => (Except.error e : Except BacktestError Backtester.BTState)
              | Except.ok st1 =>
                  Backtester.go cfg rc (i + 1) st1 (sb2 :: rest2)) = Except.ok st' := h
          cases hstep : Backtester.step cfg rc i sb st with
          | error e =>
              rw [hstep] at h'
              simp at h'
          | ok st1 =>
              rw [hstep] at h'
              obtain ⟨hD1, pt1, hpt1, hwf1, hreal1⟩ := step_effects cfg rc i sb st st1 hstep
              have hwf' : ∀ q ∈ st1.equity, q.total = q.realized + q.unrealized := by
                intro q hq
                rw [hpt1] at hq
                rcases List.mem_cons.mp hq with hh | hh
                · subst hh
                  exact hwf1
                · exact hwf q hh
              obtain ⟨hD2, hlen2, hwf2, hhead2⟩ := ih (i + 1) st1 st' h' hwf'
              refine ⟨hD2.trans hD1, ?_, hwf2, fun _ => hhead2 (by simp)⟩
              rw [hlen2, hpt1]
              simp only [List.length_cons]
              omega

/-- C2: for every completed run, every equity point satisfies total =
realized + unrealized, one equity point is produced per bar, and the sum
of the realized PnL of all trades plus the final equity point's
unrealized PnL equals the final total equity minus the initial capital. -/
theorem equity_accounting_identity (bars : List SignalBar) (cfg : BacktestConfig)
    (rc : RiskConfig) (res : Backtester.BacktestResult)
    (h : Backtester.run bars cfg rc = .ok res) :
    (∀ pt ∈ res.equity, pt.total = pt.realized + pt.unrealized) ∧
    res.equity.length = bars.length ∧
    ∀ lastPt, res.equity.getLast? = some lastPt →
      ((res.trades.map TradeResult.pnl).sum) + lastPt.unrealized
        = lastPt.total - cfg.initial_capital := by
  unfold Backtester.run at h
  by_cases hemp : bars.isEmpty
  · rw [if_pos hemp] at h
    simp at h
  · rw [if_neg hemp] at h
    by_cases hcfg : cfg.stop_loss_pct ≤ 0 ∨ cfg.take_profit_RR ≤ 0
    · rw [if_pos hcfg] at h
      simp at h
    · rw [if_neg hcfg] at h
      cases hgo : Backtester.go cfg rc 0 (Backtester.initState cfg) bars with
      | error e =>
          rw [hgo] at h
          simp at h
      | ok stf =>
          rw [hgo] at h
          injection h with h1
          subst h1
          obtain ⟨hD, hlen, hwf, hhead⟩ :=
            go_accounting cfg rc bars 0 (Backtester.initState cfg) stf hgo
              (by intro pt hpt; simp [Backtester.initState] at hpt)
          have hne : bars ≠ [] := by
            intro hb
            subst hb
            exact hemp rfl
          obtain ⟨pt, hpt, hreal⟩ := hhead hne
          have hD' : stf.cash - ((stf.trades.map TradeResult.pnl).sum)
              = cfg.initial_capital := by
            rw [hD]
            simp [Backtester.initState]
          refine ⟨?_, ?_, ?_⟩
          · intro q hq
            have hq' : q ∈ stf.equity := by
              simpa using hq
            exact hwf q hq'
          · show stf.equity.reverse.length = bars.length
            rw [List.length_reverse, hlen]
            simp [Backtester.initState]
          · intro lastPt hlast
            have hlast' : stf.equity.head? = some lastPt := by
              rw [← List.getLast?_reverse]
              exact hlast
            have hpl : pt = lastPt := by
              have h3 := hpt.symm.trans hlast'
              injection h3
            have hreal' : lastPt.realized = stf.cash := by
              rw [← hpl]
              exact hreal
            have hmem : lastPt ∈ stf.equity :=
              List.mem_of_mem_head? (by rw [hlast']; rfl)
            have hwfl := hwf lastPt hmem
            show ((stf.trades.reverse.map TradeResult.pnl).sum) + lastPt.unrealized
              = lastPt.total - cfg.initial_capital
            rw [List.map_reverse, List.sum_reverse, hwfl, hreal']
            linarith [hD']

/-- C2 witness: the three-bar example run satisfies the accounting
identity: one equity point per bar, every point well-formed, and trade
PnL sum (-100) plus final unrealized (0) equals final equity (9900) minus
initial capital (10000). -/
theorem equity_accounting_identity_witness :
    Backtester.run exBars exCfg exRc = .ok exResult ∧
    ((∀ pt ∈ exResult.equity, pt.total = pt.realized + pt.unrealized) ∧
     exResult.equity.length = exBars.length ∧
     ∀ lastPt, exResult.equity.getLast? = some lastPt →
       ((exResult.trades.map TradeResult.pnl).sum) + lastPt.unrealized
         = lastPt.total - exCfg.initial_capital) := by
  have hrun : Backtester.run exBars exCfg exRc = .ok exResult := by
    norm_num [Backtester.run, Backtester.go, Backtester.step, Backtester.stepLast,
      Backtester.stepCore, Backtester.openPosition, Backtester.closePosition,
      Backtester.updatePending, Backtester.recordEquity, Backtester.barPoint,
      Backtester.unrealizedPnl, Backtester.resolveExit, Backtester.crossedStop,
      Backtester.crossedTarget, Backtester.initState, PositionSizer.size, exBars,
      exCfg, exRc, exSignalBar0, exSignalBar1, exSignalBar2, exResult, exPosition]
  exact ⟨hrun, equity_accounting_identity exBars exCfg exRc exResult hrun⟩

/-- Auxiliary: over a series whose signal is identically zero, the run
stays flat from a flat, pending-free state: it succeeds, records no trade
and produces one equity point per bar. -/
theorem go_flat (cfg : BacktestConfig) (rc : RiskConfig) :
    ∀ (bars : List SignalBar) (i : Nat) (st : Backtester.BTState),
    st.pos = none → st.pending = none → (∀ sb ∈ bars, sb.signal = 0) →
    ∃ st', Backtester.go cfg rc i st bars = .ok st' ∧
      st'.trades = st.trades ∧
      st'.equity.length = st.equity.length + bars.length := by
  intro bars
  induction bars with
  | nil =>
      intro i st hp hq hz
      exact ⟨st, rfl, rfl, by simp⟩
  | cons sb rest ih =>
      intro i st hp hq hz
      have hz0 : sb.signal = 0 := hz sb (List.mem_cons_self sb rest)
      have hcore : Backtester.stepCore cfg rc i sb st = .ok st := by
        simp [Backtester.stepCore, hp, hq]
      cases rest with
      | nil =>
          refine ⟨Backtester.recordEquity { st with pending := none } sb, ?_, rfl, ?_⟩
          · show Backtester.stepLast cfg rc i sb st = _
            unfold Backtester.stepLast
            rw [hcore]
            simp only [hp]
          · show (Backtester.recordEquity { st with pending := none } sb).equity.length = _
            rw [show (Backtester.recordEquity { st with pending := none } sb).equity
              = Backtester.barPoint { st with pending := none } sb :: st.equity from rfl]
            simp
      | cons sb2 rest2 =>
          have hstep : Backtester.step cfg rc i sb st =
              .ok (Backtester.recordEquity (Backtester.updatePending st sb) sb) := by
            unfold Backtester.step
            rw [hcore]
          have hpos1 : (Backtester.recordEquity (Backtester.updatePending st sb) sb).pos
              = none := ((updatePending_fields st sb).2.2.2).trans hp
          have hpend1 : (Backtester.recordEquity (Backtester.updatePending st sb) sb).pending
              = none := by
            show (Backtester.updatePending st sb).pending = none
            simp [Backtester.updatePending, hp, hz0]
          have hz1 : ∀ b ∈ sb2 :: rest2, b.signal = 0 :=
            fun b hb => hz b (List.mem_cons_of_mem sb hb)
          obtain ⟨st', hgo, htr, hlen⟩ :=
            ih (i + 1) (Backtester.recordEquity (Backtester.updatePending st sb) sb)
              hpos1 hpend1 hz1
          refine ⟨st', ?_, ?_, ?_⟩
          · show (match Backtester.step cfg rc i sb st with
              | Except.error e => (Except.error e : Except BacktestError Backtester.BTState)
              | Except.ok st1 =>
                  Backtester.go cfg rc (i + 1) st1 (sb2 :: rest2)) = Except.ok st'
            rw [hstep]
            exact hgo
          · rw [htr]
            show (Backtester.updatePending st sb).trades = st.trades
            exact (updatePending_fields st sb).2.1
          · rw [hlen]
            rw [show (Backtester.recordEquity (Backtester.updatePending st sb) sb).equity
              = Backtester.barPoint (Backtester.updatePending st sb) sb ::
                (Backtester.updatePending st sb).equity from rfl]
            rw [show (Backtester.barPoint (Backtester.updatePending st sb) sb ::
                (Backtester.updatePending st sb).equity).length
              = (Backtester.updatePending st sb).equity.length + 1 from by simp]
            rw [(updatePending_fields st sb).2.2.1]
            simp only [List.length_cons]
            omega

/-- C4: a run over a series that triggers no entry (identically zero
signal) is a valid zero-trade result — no error is raised, num_trades is
0, one equity point is still produced per bar — and the Backtests page
renders such a result as an informational message, not an error. -/
theorem zero_trade_run_is_valid (bars : List SignalBar) (cfg : BacktestConfig)
    (rc : RiskConfig) (hne : bars ≠ [])
    (hsl : 0 < cfg.stop_loss_pct) (hrr : 0 < cfg.take_profit_RR)
    (hz : ∀ sb ∈ bars, sb.signal = 0) :
    ∃ res, Backtester.run bars cfg rc = .ok res ∧
      res.trades = [] ∧ MetricsCalculator.num_trades res.trades = 0 ∧
      res.equity.length = bars.length ∧
      Backtests.tradesSection (some res.trades) = .infoMessage := by
  obtain ⟨st', hgo, htr, hlen⟩ :=
    go_flat cfg rc bars 0 (Backtester.initState cfg) rfl rfl hz
  have htr' : st'.trades = [] := htr
  refine ⟨{ trades := st'.trades.reverse, equity := st'.equity.reverse }, ?_, ?_, ?_, ?_, ?_⟩
  · unfold Backtester.run
    have h1 : ¬(bars.isEmpty = true) := by
      simpa using hne
    have h2 : ¬(cfg.stop_loss_pct ≤ 0 ∨ cfg.take_profit_RR ≤ 0) := by
      push_neg
      exact ⟨hsl, hrr⟩
    rw [if_neg h1, if_neg h2, hgo]
  · show st'.trades.reverse = []
    rw [htr']
    rfl
  · show MetricsCalculator.num_trades st'.trades.reverse = 0
    unfold MetricsCalculator.num_trades
    rw [htr']
    rfl
  · show st'.equity.reverse.length = bars.length
    rw [List.length_reverse, hlen]
    simp [Backtester.initState]
  · show Backtests.tradesSection (some st'.trades.reverse) = .infoMessage
    rw [htr']
    rfl

/-- C4 witness: the two-bar all-zero-signal series produces a valid
zero-trade result rendered as an informational message. -/
theorem zero_trade_run_is_valid_witness :
    exFlatBars ≠ [] ∧ (0 : ℚ) < exCfg.stop_loss_pct ∧
    (0 : ℚ) < exCfg.take_profit_RR ∧ (∀ sb ∈ exFlatBars, sb.signal = 0) ∧
    ∃ res, Backtester.run exFlatBars exCfg exRc = .ok res ∧
      res.trades = [] ∧ MetricsCalculator.num_trades res.trades = 0 ∧
      res.equity.length = exFlatBars.length ∧
      Backtests.tradesSection (some res.trades) = .infoMessage := by
  have h1 : exFlatBars ≠ [] := by
    simp [exFlatBars]
  have h2 : (0 : ℚ) < exCfg.stop_loss_pct := by
    norm_num [exCfg]
  have h3 : (0 : ℚ) < exCfg.take_profit_RR := by
    norm_num [exCfg]
  have h4 : ∀ sb ∈ exFlatBars, sb.signal = 0 := by
    intro sb hsb
    simp only [exFlatBars, List.mem_cons, List.not_mem_nil, or_false] at hsb
    rcases hsb with h | h <;> subst h <;> rfl
  exact ⟨h1, h2, h3, h4, zero_trade_run_is_valid exFlatBars exCfg exRc h1 h2 h3 h4⟩

end CryptoBot
